import Mathlib

/-!
Shallow embedding of `src/ocr/aadhaar_ocr.py` (field extraction from OCR text).

Strings are modelled as `List Char` (Python `str` of the text layer); the
regex-based extractors are hand-translated into deterministic matchers that
follow the Python `re` semantics (leftmost match, alternation tried in order,
greedy repetition with backtracking) for the concrete patterns appearing in the
source.  Character classes are the ASCII fragments of the Python classes, which
is what the OCR text exercises.
-/

namespace AadhaarOCR

/-- ASCII fragment of Python's `\s` class (whitespace). -/
def isSpaceChar (c : Char) : Bool :=
  c = ' ' || c = '\t' || c = '\n' || c = '\r' || c = '\x0b' || c = '\x0c'

/-- ASCII fragment of Python's `\d` class (decimal digits). -/
def isDigitChar (c : Char) : Bool :=
  48 ≤ c.toNat && c.toNat ≤ 57

/-- ASCII fragment of Python's `\w` class (word characters). -/
def isWordChar (c : Char) : Bool :=
  (65 ≤ c.toNat && c.toNat ≤ 90) || (97 ≤ c.toNat && c.toNat ≤ 122) ||
    isDigitChar c || c = '_'

/-- `[2-9]`, the admissible first digit of an identifier number. -/
def isFirstAad (c : Char) : Bool :=
  50 ≤ c.toNat && c.toNat ≤ 57

/-- `[6-9]`, the admissible first digit of a mobile number. -/
def isFirstMob (c : Char) : Bool :=
  54 ≤ c.toNat && c.toNat ≤ 57

/-- `[1-9]` (a nonzero digit). -/
def isDigit19 (c : Char) : Bool :=
  49 ≤ c.toNat && c.toNat ≤ 57

/-- `text.replace('\n', ' ')` from `normalize_text`. -/
def replaceNL (l : List Char) : List Char :=
  l.map (fun c => if c = '\n' then ' ' else c)

/-- `re.sub(r'\s+', ' ', text)`: collapse each whitespace run to one space.
The boolean records whether the previous character was whitespace. -/
def collapseWS : Bool → List Char → List Char
  | _, [] => []
  | prev, c :: rest =>
    if isSpaceChar c then
      if prev then collapseWS true rest else ' ' :: collapseWS true rest
    else c :: collapseWS false rest

/-- `normalize_text` on the character level. -/
def normalizeChars (l : List Char) : List Char :=
  collapseWS false (replaceNL l)

/-- `normalize_text(text)`. -/
def normalize_text (s : String) : String :=
  ⟨normalizeChars s.data⟩

/-- Line-break characters recognised by Python `str.splitlines`. -/
def isLineBreak (c : Char) : Bool :=
  c = '\n' || c = '\r' || c = '\x0b' || c = '\x0c' ||
    c = '\x1c' || c = '\x1d' || c = '\x1e' || c = '\x85' ||
    c = '\u2028' || c = '\u2029'

/-- Fuse each `\r\n` pair into a single `\n`, so that `str.splitlines` can
treat every remaining break character as one boundary. -/
def fuseCRLF : List Char → List Char
  | [] => []
  | [c] => [c]
  | c1 :: c2 :: rest =>
    if c1 = '\r' && c2 = '\n' then '\n' :: fuseCRLF rest
    else c1 :: fuseCRLF (c2 :: rest)

/-- Worker for `str.splitlines`: accumulates the current line (reversed);
a trailing break emits no empty line. -/
def splitGo (acc : List Char) : List Char → List (List Char)
  | [] => [acc.reverse]
  | c :: rest =>
    if isLineBreak c then
      acc.reverse :: (if rest.isEmpty then [] else splitGo [] rest)
    else splitGo (c :: acc) rest

/-- Python `str.splitlines` (the empty string yields no lines). -/
def pySplitlines (l : List Char) : List (List Char) :=
  match fuseCRLF l with
  | [] => []
  | c :: rest => splitGo [] (c :: rest)

/-- Python `str.strip()`: drop whitespace from both ends. -/
def pyStrip (l : List Char) : List Char :=
  ((l.dropWhile isSpaceChar).reverse.dropWhile isSpaceChar).reverse

/-- `[line.strip() for line in text.splitlines() if line.strip()]`. -/
def linesOf (t : List Char) : List (List Char) :=
  ((pySplitlines t).map pyStrip).filter (fun l => !l.isEmpty)

/-- One trimmed line equals the marker `"to"` case-insensitively
(`line.lower() == "to"`). -/
def isMarker (l : List Char) : Bool :=
  l.map Char.toLower = ['t', 'o']

/-- The scanning loop of `extract_name`: at the first marker line with a line
two positions later, return that line; otherwise keep scanning. -/
def nameLoop (full : List (List Char)) : Nat → List (List Char) → List Char
  | _, [] => []
  | i, l :: rest =>
    if isMarker l then
      if i + 2 < full.length then full.getD (i + 2) []
      else nameLoop full (i + 1) rest
    else nameLoop full (i + 1) rest

/-- `extract_name(text)`. -/
def extract_name (t : String) : String :=
  ⟨nameLoop (linesOf t.data) 0 (linesOf t.data)⟩

/-- Does `pat` occur at the head of the list? -/
def startsWithChars : List Char → List Char → Bool
  | [], _ => true
  | _ :: _, [] => false
  | p :: ps, c :: cs => p = c && startsWithChars ps cs

/-- Python substring containment (`pat in s`). -/
def containsSeq (pat : List Char) : List Char → Bool
  | [] => pat.isEmpty
  | c :: cs => startsWithChars pat (c :: cs) || containsSeq pat cs

/-- `extract_gender(text)`: uppercase the text, look for `FEMALE` before
`MALE`. -/
def extract_gender (t : String) : String :=
  let up := t.data.map Char.toUpper
  if containsSeq "FEMALE".data up then "FEMALE"
  else if containsSeq "MALE".data up then "MALE"
  else ""

/-- Match exactly `n` digits (`\d{n}`), returning them and the rest. -/
def takeDigits : Nat → List Char → Option (List Char × List Char)
  | 0, s => some ([], s)
  | _ + 1, [] => none
  | n + 1, c :: rest =>
    if isDigitChar c then
      match takeDigits n rest with
      | some (d, r) => some (c :: d, r)
      | none => none
    else none

/-- Case-insensitive literal match (`pat` given in lowercase), returning the
rest of the input on success. -/
def matchLit : List Char → List Char → Option (List Char)
  | [], s => some s
  | _ :: _, [] => none
  | p :: ps, c :: cs => if c.toLower = p then matchLit ps cs else none

/-- `[^\d]{0,bound}` followed by a digit (or end): skip the maximal run of
non-digits if it has at most `bound` characters, else fail.  Faithful to the
greedy class with backtracking, since shortening the run leaves a non-digit
where a digit is required. -/
def skipNonDigitsLe (bound : Nat) (s : List Char) : Option (List Char) :=
  let pre := s.takeWhile (fun c => !isDigitChar c)
  if pre.length ≤ bound then some (s.drop pre.length) else none

/-- `\s?` followed by `\d{4}` (the optionally spaced groups of the identifier
pattern): if the head is whitespace it must be followed by 4 digits, else 4
digits directly.  Backtracking on `\s?` cannot succeed otherwise because a
whitespace character is not a digit. -/
def optSpace4 (s : List Char) : Option (List Char × List Char) :=
  match s with
  | [] => none
  | c :: rest => if isSpaceChar c then takeDigits 4 rest else takeDigits 4 (c :: rest)

/-- Group 2 of the identifier keyword pattern, `[2-9]\d{3}\s?\d{4}\s?\d{4}`,
returning the 12 matched digits (the source immediately strips the optional
spaces with `re.sub(r'\s', '', ...)`). -/
def aadGroupAt (s : List Char) : Option (List Char) :=
  match s with
  | [] => none
  | c :: rest =>
    if isFirstAad c then
      match takeDigits 3 rest with
      | some (d1, r1) =>
        match optSpace4 r1 with
        | some (d2, r2) =>
          match optSpace4 r2 with
          | some (d3, _) => some (c :: (d1 ++ (d2 ++ d3)))
          | none => none
        | none => none
      | none => none
    else none

/-- One alternative of the identifier keyword pattern at a fixed position:
the literal, then `[^\d]{0,20}`, then the digit group. -/
def aadAlt (lit : List Char) (s : List Char) : Option (List Char) :=
  match matchLit lit s with
  | some r1 =>
    match skipNonDigitsLe 20 r1 with
    | some r2 => aadGroupAt r2
    | none => none
  | none => none

/-- `(aadhaar|your aadhaar)[^\d]{0,20}([2-9]\d{3}\s?\d{4}\s?\d{4})` tried at
one position: the first alternative, then (backtracking) the second. -/
def aadKwAt (s : List Char) : Option (List Char) :=
  match aadAlt "aadhaar".data s with
  | some num => some num
  | none => aadAlt "your aadhaar".data s

/-- `re.search` for the keyword pattern: try every start position from the
left.  The fuel is the input length, enough to visit every position. -/
def aadKwScan : Nat → List Char → Option (List Char)
  | 0, _ => none
  | _ + 1, [] => none
  | fuel + 1, c :: rest =>
    match aadKwAt (c :: rest) with
    | some num => some num
    | none => aadKwScan fuel rest

/-- Tier 1 of `extract_aadhaar_number`: keyword-anchored search, yielding the
12 captured digits. -/
def aadKwSearch (s : List Char) : Option (List Char) :=
  aadKwScan (s.length + 1) s

/-- No word boundary is violated before a match starting after `prev`
(`none` at the start of the text). -/
def boundaryBefore (prev : Option Char) : Bool :=
  match prev with
  | none => true
  | some c => !isWordChar c

/-- Word boundary after a match: end of text or a non-word character. -/
def boundaryAfter (s : List Char) : Bool :=
  match s with
  | [] => true
  | c :: _ => !isWordChar c

/-- `\b[2-9]\d{11}\b` tried at one position, returning the 12 digits and the
rest of the input after them. -/
def tryBare12 (prev : Option Char) (s : List Char) : Option (List Char × List Char) :=
  if boundaryBefore prev then
    match s with
    | [] => none
    | c :: rest =>
      if isFirstAad c then
        match takeDigits 11 rest with
        | some (ds, r) => if boundaryAfter r then some (c :: ds, r) else none
        | none => none
      else none
  else none

/-- `re.findall(r'\b[2-9]\d{11}\b', ...)`: non-overlapping matches from the
left, tracking the previous character for the boundary test. -/
def scan12 : Nat → Option Char → List Char → List (List Char)
  | 0, _, _ => []
  | _ + 1, _, [] => []
  | fuel + 1, prev, c :: rest =>
    match tryBare12 prev (c :: rest) with
    | some (num, r) => num :: scan12 fuel (some (num.getLastD '0')) r
    | none => scan12 fuel (some c) rest

/-- All tier-2 candidates of `extract_aadhaar_number`. -/
def candidates12 (s : List Char) : List (List Char) :=
  scan12 (s.length + 1) none s

/-- First index at which `pat` occurs in the list (Python `str.find`,
with `none` for −1). -/
def findIdxSeq (pat : List Char) : Nat → List Char → Option Nat
  | i, [] => if pat.isEmpty then some i else none
  | i, c :: cs =>
    if startsWithChars pat (c :: cs) then some i else findIdxSeq pat (i + 1) cs

/-- Does the list contain 16 consecutive digits (`re.search(r'\d{16}', ...)`)? -/
def hasDigitRun16 : List Char → Bool
  | [] => false
  | c :: rest =>
    (decide (((c :: rest).take 16).length = 16) &&
      ((c :: rest).take 16).all isDigitChar) || hasDigitRun16 rest

/-- The skip test of tier 2: `clean_text.find(num)` (−1 when absent, which
cannot happen for a candidate), then the window
`clean_text[max(0, idx-5) : idx+len(num)+5]`, then the 16-digit-run test. -/
def skip16 (clean num : List Char) : Bool :=
  let idx : Int :=
    match findIdxSeq num 0 clean with
    | some i => (i : Int)
    | none => -1
  let a : Nat := (max 0 (idx - 5)).toNat
  let b : Nat := (idx + (num.length : Int) + 5).toNat
  hasDigitRun16 ((clean.drop a).take (b - a))

/-- The tier-2 loop of `extract_aadhaar_number`: first candidate whose context
window holds no 16-digit run. -/
def tier2Loop (clean : List Char) : List (List Char) → Option (List Char)
  | [] => none
  | num :: rest => if skip16 clean num then tier2Loop clean rest else some num

/-- `\b[2-9]\d{3}\s\d{4}\s\d{4}\b` tried at one position, returning the 14
matched characters. -/
def tryGrouped (prev : Option Char) (s : List Char) : Option (List Char) :=
  if boundaryBefore prev then
    match s with
    | [] => none
    | c :: rest =>
      if isFirstAad c then
        match takeDigits 3 rest with
        | some (d1, r1) =>
          match r1 with
          | [] => none
          | sp1 :: r2 =>
            if isSpaceChar sp1 then
              match takeDigits 4 r2 with
              | some (d2, r3) =>
                match r3 with
                | [] => none
                | sp2 :: r4 =>
                  if isSpaceChar sp2 then
                    match takeDigits 4 r4 with
                    | some (d3, r5) =>
                      if boundaryAfter r5 then
                        some (c :: d1 ++ sp1 :: (d2 ++ sp2 :: d3))
                      else none
                    | none => none
                  else none
              | none => none
            else none
        | none => none
      else none
  else none

/-- `re.search` for the grouped fallback pattern. -/
def scanGrouped : Nat → Option Char → List Char → Option (List Char)
  | 0, _, _ => none
  | _ + 1, _, [] => none
  | fuel + 1, prev, c :: rest =>
    match tryGrouped prev (c :: rest) with
    | some m => some m
    | none => scanGrouped fuel (some c) rest

/-- Tier 3 of `extract_aadhaar_number`. -/
def groupedSearch (s : List Char) : Option (List Char) :=
  scanGrouped (s.length + 1) none s

/-- The grouping `f"{num[:4]} {num[4:8]} {num[8:]}"`. -/
def format12 (num : List Char) : List Char :=
  num.take 4 ++ ' ' :: ((num.drop 4).take 4 ++ ' ' :: num.drop 8)

/-- `extract_aadhaar_number(text)`: keyword tier, then bare 12-digit tier with
the 16-digit-context skip, then the pre-grouped fallback. -/
def extract_aadhaar_number (t : String) : String :=
  let clean := normalizeChars t.data
  match aadKwSearch clean with
  | some num => ⟨format12 num⟩
  | none =>
    match tier2Loop clean (candidates12 clean) with
    | some num => ⟨format12 num⟩
    | none =>
      match groupedSearch clean with
      | some m => ⟨m⟩
      | none => ""

/-- Day alternatives of `DATE_REGEX`, `(0?[1-9]|[12][0-9]|3[01])`, listed as
(captured, rest) pairs in the order the backtracking engine tries them:
greedy `0?` first within the first alternative, then the later alternatives. -/
def dayCands (s : List Char) : List (List Char × List Char) :=
  (match s with
   | c0 :: c1 :: rest =>
     if c0 = '0' && isDigit19 c1 then [([c0, c1], rest)] else []
   | _ => []) ++
  (match s with
   | c :: rest => if isDigit19 c then [([c], rest)] else []
   | _ => []) ++
  (match s with
   | c0 :: c1 :: rest =>
     if (c0 = '1' || c0 = '2') && isDigitChar c1 then [([c0, c1], rest)] else []
   | _ => []) ++
  (match s with
   | c0 :: c1 :: rest =>
     if c0 = '3' && (c1 = '0' || c1 = '1') then [([c0, c1], rest)] else []
   | _ => [])

/-- Month alternatives of `DATE_REGEX`, `(0?[1-9]|1[0-2])`, in engine order. -/
def monthCands (s : List Char) : List (List Char × List Char) :=
  (match s with
   | c0 :: c1 :: rest =>
     if c0 = '0' && isDigit19 c1 then [([c0, c1], rest)] else []
   | _ => []) ++
  (match s with
   | c :: rest => if isDigit19 c then [([c], rest)] else []
   | _ => []) ++
  (match s with
   | c0 :: c1 :: rest =>
     if c0 = '1' && (c1 = '0' || c1 = '1' || c1 = '2') then [([c0, c1], rest)]
     else []
   | _ => [])

/-- The separator of `DATE_REGEX`: optional whitespace, one slash or dash,
optional whitespace.  Deterministic because whitespace, `/` and `-` are
disjoint classes, so the greedy whitespace star never needs to backtrack. -/
def sepMatch (s : List Char) : Option (List Char) :=
  match s.dropWhile isSpaceChar with
  | [] => none
  | c :: rest =>
    if c = '/' || c = '-' then some (rest.dropWhile isSpaceChar) else none

/-- `(19\d{2}|20\d{2})`: the two alternatives differ in their first character,
so no backtracking is needed. -/
def yearMatch (s : List Char) : Option (List Char × List Char) :=
  match s with
  | c0 :: c1 :: c2 :: c3 :: rest =>
    if ((c0 = '1' && c1 = '9') || (c0 = '2' && c1 = '0')) &&
        isDigitChar c2 && isDigitChar c3 then
      some ([c0, c1, c2, c3], rest)
    else none
  | _ => none

/-- One attempt of `DATE_REGEX` at a fixed position, with the engine's
backtracking over the day and month alternatives.  Returns the three captured
groups and the rest of the input after the match. -/
def tryDateAt (s : List Char) : Option ((List Char × List Char × List Char) × List Char) :=
  (dayCands s).findSome? fun dp =>
    match sepMatch dp.2 with
    | none => none
    | some r2 =>
      (monthCands r2).findSome? fun mp =>
        match sepMatch mp.2 with
        | none => none
        | some r3 =>
          match yearMatch r3 with
          | none => none
          | some (y, r4) => some ((dp.1, mp.1, y), r4)

/-- `re.findall` for `DATE_REGEX`: leftmost non-overlapping matches. -/
def dateScan : Nat → List Char → List (List Char × List Char × List Char)
  | 0, _ => []
  | _ + 1, [] => []
  | fuel + 1, c :: rest =>
    match tryDateAt (c :: rest) with
    | some (g, r) => g :: dateScan fuel r
    | none => dateScan fuel rest

/-- All `DATE_REGEX` matches (their captured groups) in the list. -/
def dateFindAll (s : List Char) : List (List Char × List Char × List Char) :=
  dateScan (s.length + 1) s

/-- `extract_dob(text)`: normalize, find all dates, join the last one with
`/` (empty when there is none). -/
def extract_dob (t : String) : String :=
  let clean := normalizeChars t.data
  match (dateFindAll clean).getLast? with
  | none => ""
  | some (d, m, y) => ⟨d ++ '/' :: (m ++ '/' :: y)⟩

/-- Group 2 of the mobile keyword pattern, `[6-9]\d{9}`, returning the 10
captured digits and the rest of the input after them. -/
def mobGroupAt (s : List Char) : Option (List Char × List Char) :=
  match s with
  | [] => none
  | c :: rest =>
    if isFirstMob c then
      match takeDigits 9 rest with
      | some (d, r) => some (c :: d, r)
      | none => none
    else none

/-- One alternative of `(mobile|moblle|moblie)[^\d]{0,10}([6-9]\d{9})` at a
fixed position. -/
def mobAlt (lit : List Char) (s : List Char) : Option (List Char × List Char) :=
  match matchLit lit s with
  | some r1 =>
    match skipNonDigitsLe 10 r1 with
    | some r2 => mobGroupAt r2
    | none => none
  | none => none

/-- The mobile keyword pattern at one position; the three keyword literals are
pairwise exclusive at any position, so trying them in order is faithful. -/
def mobKwAt (s : List Char) : Option (List Char × List Char) :=
  match mobAlt "mobile".data s with
  | some r => some r
  | none =>
    match mobAlt "moblle".data s with
    | some r => some r
    | none => mobAlt "moblie".data s

/-- `re.search` for the mobile keyword pattern. -/
def mobKwScan : Nat → List Char → Option (List Char × List Char)
  | 0, _ => none
  | _ + 1, [] => none
  | fuel + 1, c :: rest =>
    match mobKwAt (c :: rest) with
    | some r => some r
    | none => mobKwScan fuel rest

/-- Tier 1 of `extract_mobile_number`: captured digits plus the input that
follows them. -/
def mobKwSearch (s : List Char) : Option (List Char × List Char) :=
  mobKwScan (s.length + 1) s

/-- `\b[6-9]\d{9}\b` tried at one position. -/
def tryBare10 (prev : Option Char) (s : List Char) : Option (List Char) :=
  if boundaryBefore prev then
    match s with
    | [] => none
    | c :: rest =>
      if isFirstMob c then
        match takeDigits 9 rest with
        | some (ds, r) => if boundaryAfter r then some (c :: ds) else none
        | none => none
      else none
  else none

/-- `re.search` for the bare 10-digit mobile pattern. -/
def bare10Scan : Nat → Option Char → List Char → Option (List Char)
  | 0, _, _ => none
  | _ + 1, _, [] => none
  | fuel + 1, prev, c :: rest =>
    match tryBare10 prev (c :: rest) with
    | some m => some m
    | none => bare10Scan fuel (some c) rest

/-- Tier 2 of `extract_mobile_number`. -/
def bare10Search (s : List Char) : Option (List Char) :=
  bare10Scan (s.length + 1) none s

/-- `extract_mobile_number(text)`. -/
def extract_mobile_number (t : String) : String :=
  let clean := normalizeChars t.data
  match mobKwSearch clean with
  | some (cap, _) => ⟨cap⟩
  | none =>
    match bare10Search clean with
    | some m => ⟨m⟩
    | none => ""

/-- `\b\d{6}\b` tried at one position. -/
def tryPin6 (prev : Option Char) (s : List Char) : Option (List Char) :=
  if boundaryBefore prev then
    match takeDigits 6 s with
    | some (ds, r) => if boundaryAfter r then some ds else none
    | none => none
  else none

/-- `re.search` for the pincode pattern (on the raw text, not normalized). -/
def pinScan : Nat → Option Char → List Char → Option (List Char)
  | 0, _, _ => none
  | _ + 1, _, [] => none
  | fuel + 1, prev, c :: rest =>
    match tryPin6 prev (c :: rest) with
    | some m => some m
    | none => pinScan fuel (some c) rest

/-- The pincode search of `extract_fields`. -/
def pinSearch (s : List Char) : Option (List Char) :=
  pinScan (s.length + 1) none s

/-- The six-key record built by `extract_fields`. -/
structure AadhaarFields where
  Name : String
  Adhaar_Number : String
  GENDER : String
  DOB : String
  Mobile : String
  Pincode : String
deriving DecidableEq

/-- `extract_fields(text)`: all six keys are always present; each starts as
the empty string and is overwritten by its extractor (the pincode only when
its pattern matches the raw text). -/
def extract_fields (t : String) : AadhaarFields where
  Name := extract_name t
  Adhaar_Number := extract_aadhaar_number t
  GENDER := extract_gender t
  DOB := extract_dob t
  Mobile := extract_mobile_number t
  Pincode :=
    match pinSearch t.data with
    | some m => ⟨m⟩
    | none => ""

/-- `normalize_aadhaar(aadhaar_str)`: empty for a falsy string, else strip
every non-digit (`re.sub(r"\D", "", ...)`). -/
def normalize_aadhaar (s : String) : String :=
  if s = "" then "" else ⟨s.data.filter isDigitChar⟩

/-- Python `s or ""` for strings (the identity, since only `""` is falsy). -/
def pyOrEmpty (s : String) : String :=
  if s = "" then "" else s

/-- Python `str.capitalize()`: first character uppercased, rest lowercased. -/
def pyCapitalize (s : String) : String :=
  match s.data with
  | [] => ""
  | c :: rest => ⟨c.toUpper :: rest.map Char.toLower⟩

/-- The structured record returned by `run_aadhaar_ocr`. -/
structure AadhaarRecord where
  aadhaar_number : String
  full_name : String
  gender : String
  dob : String
  mobile_number : String
  pincode : String
deriving DecidableEq

/-- The post-processing (assembly) step of `run_aadhaar_ocr`, applied to the
fields extracted from the OCR text. -/
def assembleRecord (f : AadhaarFields) : AadhaarRecord where
  aadhaar_number := normalize_aadhaar f.Adhaar_Number
  full_name := pyOrEmpty f.Name
  gender := pyCapitalize (pyOrEmpty f.GENDER)
  dob := pyOrEmpty f.DOB
  mobile_number := pyOrEmpty f.Mobile
  pincode := pyOrEmpty f.Pincode

/-- The text-level pipeline of `run_aadhaar_ocr`: `extract_fields` on the OCR
text followed by the assembly step (the OCR engine itself is outside the
embedding; its output text is the function's argument). -/
def runPipeline (t : String) : AadhaarRecord :=
  assembleRecord (extract_fields t)

/-- Index of the first line whose trimmed content equals `"to"`
case-insensitively, counting from `i`. -/
def firstMarkerIdx : Nat → List (List Char) → Option Nat
  | _, [] => none
  | i, l :: rest => if isMarker l then some i else firstMarkerIdx (i + 1) rest

/-- Tier-2 candidates together with the absolute position of their own
occurrence in the scanned text. -/
def scan12Pos : Nat → Nat → Option Char → List Char → List (List Char × Nat)
  | 0, _, _, _ => []
  | _ + 1, _, _, [] => []
  | fuel + 1, pos, prev, c :: rest =>
    match tryBare12 prev (c :: rest) with
    | some (num, r) =>
      (num, pos) :: scan12Pos fuel (pos + 12) (some (num.getLastD '0')) r
    | none => scan12Pos fuel (pos + 1) (some c) rest

/-- Worker for `tier2OwnWindow`. -/
def tier2OwnLoop (clean : List Char) : List (List Char × Nat) → Option (List Char)
  | [] => none
  | (num, idx) :: rest =>
    if hasDigitRun16
        ((clean.drop (idx - 5)).take ((idx + num.length + 5) - (idx - 5))) then
      tier2OwnLoop clean rest
    else some num

/-- Modelled from the spec: claim C3 describes the tier-2 skip test with the
context window taken around the candidate's *own* occurrence (5 characters
before it through 5 after).  This definition follows those words, to be
compared with the source's `tier2Loop`, which calls `clean_text.find(num)`
and therefore windows the *first* occurrence of the digit string. -/
def tier2OwnWindow (clean : List Char) : Option (List Char) :=
  tier2OwnLoop clean (scan12Pos (clean.length + 1) 0 none clean)

/-- Modelled from the spec: claim C10's antecedent at one position — a mobile
keyword literal followed within at most 10 non-digit characters by a run of
more than 10 consecutive digits whose first digit is 6–9; yields the first 10
digits of that run. -/
def mobLongRunAt (s : List Char) : Option (List Char) :=
  ["mobile".data, "moblle".data, "moblie".data].findSome? fun lit =>
    match matchLit lit s with
    | some r1 =>
      match skipNonDigitsLe 10 r1 with
      | some r2 =>
        let run := r2.takeWhile isDigitChar
        match r2 with
        | c :: _ =>
          if isFirstMob c && decide (10 < run.length) then some (run.take 10)
          else none
        | [] => none
      | none => none
    | none => none

/-- Modelled from the spec: the first position satisfying claim C10's
antecedent, scanning from the left. -/
def mobLongRunScan : Nat → List Char → Option (List Char)
  | 0, _ => none
  | _ + 1, [] => none
  | fuel + 1, c :: rest =>
    match mobLongRunAt (c :: rest) with
    | some r => some r
    | none => mobLongRunScan fuel rest

/-- Modelled from the spec: claim C10's predicted output on a text — the
first 10 digits of the first keyword-anchored digit run longer than 10. -/
def mobLongRunClaim (t : String) : Option (List Char) :=
  let clean := normalizeChars t.data
  mobLongRunScan (clean.length + 1) clean

/-! ### Soundness lemmas for the matchers -/

theorem takeDigits_sound :
    ∀ (n : Nat) (s d r : List Char), takeDigits n s = some (d, r) →
      d.length = n ∧ (∀ c ∈ d, isDigitChar c = true) ∧ s = d ++ r := by
  intro n
  induction n with
  | zero =>
    intro s d r h
    simp only [takeDigits, Option.some.injEq, Prod.mk.injEq] at h
    obtain ⟨rfl, rfl⟩ := h
    simp
  | succ n ih =>
    intro s d r h
    match s with
    | [] => simp [takeDigits] at h
    | c :: rest =>
      simp only [takeDigits] at h
      by_cases hc : isDigitChar c
      · rw [if_pos hc] at h
        cases hrec : takeDigits n rest with
        | none => rw [hrec] at h; simp at h
        | some pr =>
          obtain ⟨d2, r2⟩ := pr
          rw [hrec] at h
          simp only [Option.some.injEq, Prod.mk.injEq] at h
          obtain ⟨rfl, rfl⟩ := h
          obtain ⟨h1, h2, h3⟩ := ih rest _ _ hrec
          refine ⟨by simp [h1], ?_, by simp [h3]⟩
          intro x hx
          rcases List.mem_cons.mp hx with rfl | hx
          · exact hc
          · exact h2 x hx
      · rw [if_neg hc] at h; simp at h

theorem optSpace4_sound (s d r : List Char) (h : optSpace4 s = some (d, r)) :
    d.length = 4 ∧ (∀ c ∈ d, isDigitChar c = true) := by
  match s with
  | [] => simp [optSpace4] at h
  | c :: rest =>
    simp only [optSpace4] at h
    by_cases hc : isSpaceChar c
    · rw [if_pos hc] at h
      obtain ⟨h1, h2, _⟩ := takeDigits_sound 4 rest d r h
      exact ⟨h1, h2⟩
    · rw [if_neg hc] at h
      obtain ⟨h1, h2, _⟩ := takeDigits_sound 4 (c :: rest) d r h
      exact ⟨h1, h2⟩

/-- Shape of a successful tier-1 digit group: 12 digits, first in 2–9. -/
def goodNum (num : List Char) : Prop :=
  num.length = 12 ∧ (∀ c ∈ num, isDigitChar c = true) ∧
    ∃ c rest, num = c :: rest ∧ isFirstAad c = true

theorem isFirstAad_digit (c : Char) (h : isFirstAad c = true) :
    isDigitChar c = true := by
  simp only [isFirstAad, Bool.and_eq_true, decide_eq_true_eq] at h
  simp only [isDigitChar, Bool.and_eq_true, decide_eq_true_eq]
  omega

theorem isFirstMob_digit (c : Char) (h : isFirstMob c = true) :
    isDigitChar c = true := by
  simp only [isFirstMob, Bool.and_eq_true, decide_eq_true_eq] at h
  simp only [isDigitChar, Bool.and_eq_true, decide_eq_true_eq]
  omega

theorem aadGroupAt_sound (s num : List Char) (h : aadGroupAt s = some num) :
    goodNum num := by
  unfold aadGroupAt at h
  split at h
  · exact absurd h (by simp)
  next c rest =>
    split at h
    next hc =>
      split at h
      next d1 r1 h1 =>
        split at h
        next d2 r2 h2 =>
          split at h
          next d3 r3 h3 =>
            simp only [Option.some.injEq] at h
            subst h
            obtain ⟨l1, m1, _⟩ := takeDigits_sound 3 rest d1 r1 h1
            obtain ⟨l2, m2⟩ := optSpace4_sound r1 d2 r2 h2
            obtain ⟨l3, m3⟩ := optSpace4_sound r2 d3 r3 h3
            refine ⟨by simp [l1, l2, l3], ?_, c, _, rfl, hc⟩
            intro x hx
            rcases List.mem_cons.mp hx with rfl | hx
            · exact isFirstAad_digit x hc
            · rcases List.mem_append.mp hx with hx | hx
              · exact m1 x hx
              · rcases List.mem_append.mp hx with hx | hx
                · exact m2 x hx
                · exact m3 x hx
          · exact absurd h (by simp)
        · exact absurd h (by simp)
      · exact absurd h (by simp)
    · exact absurd h (by simp)

theorem aadAlt_sound (lit s num : List Char) (h : aadAlt lit s = some num) :
    goodNum num := by
  unfold aadAlt at h
  split at h
  next r1 h1 =>
    split at h
    next r2 h2 => exact aadGroupAt_sound r2 num h
    · exact absurd h (by simp)
  · exact absurd h (by simp)

theorem aadKwAt_sound (s num : List Char) (h : aadKwAt s = some num) :
    goodNum num := by
  unfold aadKwAt at h
  split at h
  next n1 h1 =>
    simp only [Option.some.injEq] at h
    subst h
    exact aadAlt_sound _ s _ h1
  next h1 => exact aadAlt_sound _ s num h

theorem aadKwScan_sound :
    ∀ (fuel : Nat) (s num : List Char), aadKwScan fuel s = some num →
      goodNum num := by
  intro fuel
  induction fuel with
  | zero => intro s num h; simp [aadKwScan] at h
  | succ fuel ih =>
    intro s num h
    match s with
    | [] => simp [aadKwScan] at h
    | c :: rest =>
      unfold aadKwScan at h
      split at h
      next n1 h1 =>
        simp only [Option.some.injEq] at h
        subst h
        exact aadKwAt_sound _ _ h1
      next h1 => exact ih rest num h

theorem aadKwSearch_sound (s num : List Char) (h : aadKwSearch s = some num) :
    goodNum num :=
  aadKwScan_sound _ s num h

theorem tryBare12_sound (prev : Option Char) (s num r : List Char)
    (h : tryBare12 prev s = some (num, r)) : goodNum num := by
  unfold tryBare12 at h
  split at h
  next hb =>
    split at h
    · exact absurd h (by simp)
    next c rest =>
      split at h
      next hc =>
        split at h
        next ds r1 h1 =>
          split at h
          next h2 =>
            simp only [Option.some.injEq, Prod.mk.injEq] at h
            obtain ⟨rfl, rfl⟩ := h
            obtain ⟨l1, m1, _⟩ := takeDigits_sound 11 rest ds _ h1
            refine ⟨by simp [l1], ?_, c, _, rfl, hc⟩
            intro x hx
            rcases List.mem_cons.mp hx with rfl | hx
            · exact isFirstAad_digit x hc
            · exact m1 x hx
          next h2 => exact absurd h (by simp)
        · exact absurd h (by simp)
      next hc => exact absurd h (by simp)
  next hb => exact absurd h (by simp)

theorem scan12_sound :
    ∀ (fuel : Nat) (prev : Option Char) (s num : List Char),
      num ∈ scan12 fuel prev s → goodNum num := by
  intro fuel
  induction fuel with
  | zero => intro prev s num h; simp [scan12] at h
  | succ fuel ih =>
    intro prev s num h
    match s with
    | [] => simp [scan12] at h
    | c :: rest =>
      unfold scan12 at h
      split at h
      next n1 r1 h1 =>
        rcases List.mem_cons.mp h with rfl | h
        · exact tryBare12_sound prev _ num r1 h1
        · exact ih _ r1 num h
      next h1 => exact ih _ rest num h

theorem candidates12_sound (s num : List Char) (h : num ∈ candidates12 s) :
    goodNum num :=
  scan12_sound _ none s num h

theorem tier2Loop_mem :
    ∀ (clean : List Char) (l : List (List Char)) (num : List Char),
      tier2Loop clean l = some num → num ∈ l := by
  intro clean l
  induction l with
  | nil => intro num h; simp [tier2Loop] at h
  | cons n1 rest ih =>
    intro num h
    simp only [tier2Loop] at h
    by_cases h1 : skip16 clean n1
    · rw [if_pos h1] at h
      exact List.mem_cons_of_mem _ (ih num h)
    · rw [if_neg h1] at h
      simp only [Option.some.injEq] at h
      subst h
      exact List.mem_cons_self _ _

/-- The canonical output shape of the identifier extractor: three groups of 4
digits separated by single spaces, first digit in 2–9. -/
def canonicalShape (out : List Char) : Prop :=
  ∃ g1 g2 g3 : List Char, out = g1 ++ ' ' :: (g2 ++ ' ' :: g3) ∧
    g1.length = 4 ∧ g2.length = 4 ∧ g3.length = 4 ∧
    (∀ c ∈ g1 ++ (g2 ++ g3), isDigitChar c = true) ∧
    ∃ c l, g1 = c :: l ∧ isFirstAad c = true

theorem format12_shape (num : List Char) (h12 : num.length = 12)
    (hd : ∀ c ∈ num, isDigitChar c = true)
    (hh : ∃ c rest, num = c :: rest ∧ isFirstAad c = true) :
    canonicalShape (format12 num) := by
  refine ⟨num.take 4, (num.drop 4).take 4, num.drop 8, rfl, ?_, ?_, ?_, ?_, ?_⟩
  · simp [h12]
  · simp [h12]
  · simp [h12]
  · intro c hc
    rcases List.mem_append.mp hc with hc | hc
    · exact hd c (List.take_subset _ _ hc)
    · rcases List.mem_append.mp hc with hc | hc
      · exact hd c (List.drop_subset _ _ (List.take_subset _ _ hc))
      · exact hd c (List.drop_subset _ _ hc)
  · obtain ⟨c, rest, rfl, hc⟩ := hh
    exact ⟨c, rest.take 3, by simp, hc⟩

theorem goodNum_shape (num : List Char) (h : goodNum num) :
    canonicalShape (format12 num) :=
  format12_shape num h.1 h.2.1 h.2.2

theorem filter_format12 (a : List Char) (h : ∀ c ∈ a, isDigitChar c = true) :
    (format12 a).filter isDigitChar = a := by
  unfold format12
  have hsp : isDigitChar ' ' = false := by decide
  have h1 : (a.take 4).filter isDigitChar = a.take 4 :=
    List.filter_eq_self.mpr (fun c hc => h c (List.take_subset _ _ hc))
  have h2 : ((a.drop 4).take 4).filter isDigitChar = (a.drop 4).take 4 :=
    List.filter_eq_self.mpr
      (fun c hc => h c (List.drop_subset _ _ (List.take_subset _ _ hc)))
  have h3 : (a.drop 8).filter isDigitChar = a.drop 8 :=
    List.filter_eq_self.mpr (fun c hc => h c (List.drop_subset _ _ hc))
  rw [List.filter_append, h1, List.filter_cons, hsp]
  simp only [Bool.false_eq_true, if_false]
  rw [List.filter_append, h2, List.filter_cons, hsp]
  simp only [Bool.false_eq_true, if_false, h3]
  have h4 : (a.drop 4).take 4 ++ a.drop 8 = a.drop 4 := by
    have hd : a.drop 8 = (a.drop 4).drop 4 := by
      rw [List.drop_drop]
    rw [hd, List.take_append_drop]
  rw [h4, List.take_append_drop]

theorem format12_inj (a b : List Char) (ha : ∀ c ∈ a, isDigitChar c = true)
    (hb : ∀ c ∈ b, isDigitChar c = true) (h : format12 a = format12 b) :
    a = b := by
  rw [← filter_format12 a ha, ← filter_format12 b hb, h]

theorem collapseWS_onlySpace :
    ∀ (l : List Char) (b : Bool) (c : Char), c ∈ collapseWS b l →
      isSpaceChar c = true → c = ' ' := by
  intro l
  induction l with
  | nil => intro b c hc; simp [collapseWS] at hc
  | cons a rest ih =>
    intro b c hc hsp
    unfold collapseWS at hc
    by_cases ha : isSpaceChar a
    · rw [if_pos ha] at hc
      by_cases hb : b
      · rw [if_pos hb] at hc
        exact ih true c hc hsp
      · rw [if_neg hb] at hc
        rcases List.mem_cons.mp hc with rfl | hc
        · rfl
        · exact ih true c hc hsp
    · rw [if_neg ha] at hc
      rcases List.mem_cons.mp hc with rfl | hc
      · exact absurd hsp (by simp [ha])
      · exact ih false c hc hsp

theorem normalizeChars_onlySpace (l : List Char) :
    ∀ c ∈ normalizeChars l, isSpaceChar c = true → c = ' ' :=
  fun c hc => collapseWS_onlySpace (replaceNL l) false c hc

theorem tryGrouped_sound (prev : Option Char) (s m : List Char)
    (h : tryGrouped prev s = some m) :
    ∃ (c : Char) (d1 : List Char) (sp1 : Char) (d2 : List Char) (sp2 : Char)
      (d3 : List Char),
      m = (c :: d1) ++ sp1 :: (d2 ++ sp2 :: d3) ∧
      (c :: d1).length = 4 ∧ d2.length = 4 ∧ d3.length = 4 ∧
      (∀ x ∈ (c :: d1) ++ (d2 ++ d3), isDigitChar x = true) ∧
      isFirstAad c = true ∧
      isSpaceChar sp1 = true ∧ isSpaceChar sp2 = true ∧
      sp1 ∈ s ∧ sp2 ∈ s := by
  unfold tryGrouped at h
  split at h
  next hb =>
    split at h
    · exact absurd h (by simp)
    next c rest =>
      split at h
      next hc =>
        split at h
        next d1 r1 h1 =>
          split at h
          · exact absurd h (by simp)
          next sp1 r2 =>
            split at h
            next hsp1 =>
              split at h
              next d2 r3 h2 =>
                split at h
                · exact absurd h (by simp)
                next sp2 r4 =>
                  split at h
                  next hsp2 =>
                    split at h
                    next d3 r5 h3 =>
                      split at h
                      next hba =>
                        simp only [Option.some.injEq] at h
                        subst h
                        obtain ⟨l1, m1, e1⟩ := takeDigits_sound 3 rest d1 _ h1
                        obtain ⟨l2, m2, e2⟩ := takeDigits_sound 4 r2 d2 _ h2
                        obtain ⟨l3, m3, _⟩ := takeDigits_sound 4 r4 d3 _ h3
                        refine ⟨c, d1, sp1, d2, sp2, d3, by simp, by simp [l1],
                          l2, l3, ?_, hc, hsp1, hsp2, ?_, ?_⟩
                        · intro x hx
                          rcases List.mem_cons.mp hx with rfl | hx
                          · exact isFirstAad_digit x hc
                          · rcases List.mem_append.mp hx with hx | hx
                            · exact m1 x hx
                            · rcases List.mem_append.mp hx with hx | hx
                              · exact m2 x hx
                              · exact m3 x hx
                        · rw [e1]
                          simp
                        · rw [e1, e2]
                          simp
                      next hba => exact absurd h (by simp)
                    · exact absurd h (by simp)
                  next hsp2 => exact absurd h (by simp)
              · exact absurd h (by simp)
            next hsp1 => exact absurd h (by simp)
        · exact absurd h (by simp)
      next hc => exact absurd h (by simp)
  next hb => exact absurd h (by simp)

theorem scanGrouped_sound :
    ∀ (fuel : Nat) (prev : Option Char) (s m : List Char),
      (∀ c ∈ s, isSpaceChar c = true → c = ' ') →
      scanGrouped fuel prev s = some m → canonicalShape m := by
  intro fuel
  induction fuel with
  | zero => intro prev s m hs h; simp [scanGrouped] at h
  | succ fuel ih =>
    intro prev s m hs h
    match s with
    | [] => simp [scanGrouped] at h
    | c :: rest =>
      unfold scanGrouped at h
      split at h
      next m1 h1 =>
        simp only [Option.some.injEq] at h
        subst h
        obtain ⟨c0, d1, sp1, d2, sp2, d3, hm, l1, l2, l3, hdig, hc0, hsp1,
          hsp2, hin1, hin2⟩ := tryGrouped_sound prev _ _ h1
        have esp1 : sp1 = ' ' := hs sp1 hin1 hsp1
        have esp2 : sp2 = ' ' := hs sp2 hin2 hsp2
        subst esp1
        subst esp2
        exact ⟨c0 :: d1, d2, d3, hm, l1, l2, l3, hdig, c0, d1, rfl, hc0⟩
      next h1 =>
        exact ih (some c) rest m (fun x hx hsp => hs x (List.mem_cons_of_mem _ hx) hsp) h

/-! ### Claim theorems -/

/-- C4: whenever `extract_aadhaar_number` returns a non-empty string, that
string is three groups of 4 digits separated by single spaces, and its first
digit is in 2–9 — under all three tiers (keyword-anchored, bare 12-digit
scan, and pre-grouped fallback). -/
theorem C4_canonical_output (t : String)
    (h : extract_aadhaar_number t ≠ "") :
    canonicalShape (extract_aadhaar_number t).data := by
  cases hkw : aadKwSearch (normalizeChars t.data) with
  | some num =>
    have he : extract_aadhaar_number t = ⟨format12 num⟩ := by
      simp [extract_aadhaar_number, hkw]
    rw [he]
    exact goodNum_shape num (aadKwSearch_sound _ num hkw)
  | none =>
    cases h2 : tier2Loop (normalizeChars t.data)
        (candidates12 (normalizeChars t.data)) with
    | some num =>
      have he : extract_aadhaar_number t = ⟨format12 num⟩ := by
        simp [extract_aadhaar_number, hkw, h2]
      rw [he]
      exact goodNum_shape num
        (candidates12_sound _ num (tier2Loop_mem _ _ num h2))
    | none =>
      cases h3 : groupedSearch (normalizeChars t.data) with
      | some m =>
        have he : extract_aadhaar_number t = ⟨m⟩ := by
          simp [extract_aadhaar_number, hkw, h2, h3]
        rw [he]
        exact scanGrouped_sound _ none _ m (normalizeChars_onlySpace t.data) h3
      | none =>
        exact absurd (by simp [extract_aadhaar_number, hkw, h2, h3]) h

/-- Witness for C4 at a concrete input (grouped-fallback tier). -/
theorem C4_canonical_output_witness :
    extract_aadhaar_number "2345 6789 0123" ≠ "" ∧
      canonicalShape (extract_aadhaar_number "2345 6789 0123").data :=
  ⟨by decide, C4_canonical_output "2345 6789 0123" (by decide)⟩

/-- C5: when the keyword-anchored tier matches (capturing `num`), the
extractor returns that number regrouped as 4+4+4 — and not the grouping of
any different bare 12-digit candidate, wherever the candidates occur. -/
theorem C5_keyword_precedence (t : String) (num : List Char)
    (hkw : aadKwSearch (normalizeChars t.data) = some num) :
    extract_aadhaar_number t = ⟨format12 num⟩ ∧
      ∀ num2 ∈ candidates12 (normalizeChars t.data), num2 ≠ num →
        extract_aadhaar_number t ≠ ⟨format12 num2⟩ := by
  have he : extract_aadhaar_number t = ⟨format12 num⟩ := by
    simp [extract_aadhaar_number, hkw]
  refine ⟨he, fun num2 hmem hne hcontra => ?_⟩
  rw [he] at hcontra
  have hfmt : format12 num = format12 num2 := congrArg String.data hcontra
  have : num = num2 :=
    format12_inj num num2 (aadKwSearch_sound _ num hkw).2.1
      (candidates12_sound _ num2 hmem).2.1 hfmt
  exact hne this.symm

/-- Witness for C5: the bare candidate `345678901234` occurs first, yet the
keyword-anchored number wins. -/
theorem C5_keyword_precedence_witness :
    aadKwSearch
        (normalizeChars "345678901234 your aadhaar 2345 6789 0123".data) =
      some "234567890123".data ∧
    extract_aadhaar_number "345678901234 your aadhaar 2345 6789 0123" =
      "2345 6789 0123" :=
  ⟨by decide,
    (C5_keyword_precedence "345678901234 your aadhaar 2345 6789 0123"
        "234567890123".data (by decide)).1.trans (by decide)⟩

/-- C6: `extract_dob` returns the empty string when the date pattern has no
match in the flattened text, and otherwise the day, month and year groups of
the last match joined with slashes, widths preserved; on an input holding
`12/05/2020` before `23/11/1990` the result is `23/11/1990`. -/
theorem C6_dob_last_match (t : String) :
    (dateFindAll (normalizeChars t.data) = [] → extract_dob t = "") ∧
    (∀ d m y : List Char,
      (dateFindAll (normalizeChars t.data)).getLast? = some (d, m, y) →
      extract_dob t = ⟨d ++ '/' :: (m ++ '/' :: y)⟩) ∧
    extract_dob "12/05/2020 and then 23/11/1990" = "23/11/1990" := by
  refine ⟨fun h => ?_, fun d m y h => ?_, by rfl⟩
  · simp [extract_dob, h]
  · simp [extract_dob, h]

/-- Witness for C6 at a concrete input with two dates. -/
theorem C6_dob_last_match_witness :
    (dateFindAll
        (normalizeChars "12/05/2020 and then 23/11/1990".data)).getLast? =
      some ("23".data, "11".data, "1990".data) ∧
    extract_dob "12/05/2020 and then 23/11/1990" = "23/11/1990" :=
  ⟨by decide,
    ((C6_dob_last_match "12/05/2020 and then 23/11/1990").2.1 "23".data
        "11".data "1990".data (by decide)).trans (by decide)⟩

/-- C8: `extract_gender` answers `FEMALE` whenever the uppercased text holds
`FEMALE` (so such a text is never reported `MALE`), else `MALE` whenever it
holds `MALE`, else the empty string. -/
theorem C8_gender_order (t : String) :
    (containsSeq "FEMALE".data (t.data.map Char.toUpper) = true →
      extract_gender t = "FEMALE" ∧ extract_gender t ≠ "MALE") ∧
    (containsSeq "FEMALE".data (t.data.map Char.toUpper) = false →
      containsSeq "MALE".data (t.data.map Char.toUpper) = true →
      extract_gender t = "MALE") ∧
    (containsSeq "FEMALE".data (t.data.map Char.toUpper) = false →
      containsSeq "MALE".data (t.data.map Char.toUpper) = false →
      extract_gender t = "") := by
  refine ⟨fun h => ⟨?_, ?_⟩, fun h1 h2 => ?_, fun h1 h2 => ?_⟩
  · simp [extract_gender, h]
  · simp [extract_gender, h]
  · simp [extract_gender, h1, h2]
  · simp [extract_gender, h1, h2]

/-- Witness for C8 at a text whose only gender token is `FEMALE`. -/
theorem C8_gender_order_witness :
    containsSeq "FEMALE".data ("sex: female".data.map Char.toUpper) = true ∧
      (extract_gender "sex: female" = "FEMALE" ∧
        extract_gender "sex: female" ≠ "MALE") :=
  ⟨by decide, (C8_gender_order "sex: female").1 (by decide)⟩

theorem filter_digit_idem (l : List Char) :
    (l.filter isDigitChar).filter isDigitChar = l.filter isDigitChar := by
  induction l with
  | nil => rfl
  | cons c rest ih =>
    by_cases h : isDigitChar c <;> simp [List.filter_cons, h, ih]

/-- C9: `normalize_aadhaar` (strip all non-digits, empty for a falsy input)
is idempotent. -/
theorem C9_normalize_idem (s : String) :
    normalize_aadhaar (normalize_aadhaar s) = normalize_aadhaar s := by
  unfold normalize_aadhaar
  by_cases h : s = ""
  · simp [h]
  · rw [if_neg h]
    by_cases h2 : (⟨s.data.filter isDigitChar⟩ : String) = ""
    · rw [if_pos h2, h2]
    · rw [if_neg h2]
      show (⟨(s.data.filter isDigitChar).filter isDigitChar⟩ : String) = _
      rw [filter_digit_idem]

theorem nameLoop_of_big (full : List (List Char)) :
    ∀ (rem : List (List Char)) (j : Nat), full.length ≤ j + 2 →
      nameLoop full j rem = [] := by
  intro rem
  induction rem with
  | nil => intro j h; rfl
  | cons l rest ih =>
    intro j h
    unfold nameLoop
    by_cases hm : isMarker l
    · rw [if_pos hm]
      have hb : ¬(j + 2 < full.length) := by omega
      rw [if_neg hb]
      exact ih (j + 1) (by omega)
    · rw [if_neg hm]
      exact ih (j + 1) (by omega)

theorem nameLoop_spec (full : List (List Char)) :
    ∀ (rem : List (List Char)) (j : Nat),
      nameLoop full j rem =
        (match firstMarkerIdx j rem with
         | none => []
         | some i => if i + 2 < full.length then full.getD (i + 2) [] else []) := by
  intro rem
  induction rem with
  | nil => intro j; rfl
  | cons l rest ih =>
    intro j
    unfold nameLoop firstMarkerIdx
    by_cases hm : isMarker l
    · rw [if_pos hm, if_pos hm]
      show _ = if j + 2 < full.length then full.getD (j + 2) [] else []
      by_cases hb : j + 2 < full.length
      · rw [if_pos hb, if_pos hb]
      · rw [if_neg hb, if_neg hb]
        exact nameLoop_of_big full rest (j + 1) (by omega)
    · rw [if_neg hm, if_neg hm]
      exact ih (j + 1)

/-- C2: with `L` the trimmed non-empty lines in order and `i` the index of
the first line equal to `to` case-insensitively, `extract_name` returns
`L[i+2]` exactly when that index exists and the empty string when it does
not; with no marker line it returns the empty string, e.g. on
`"Ramesh Kumar\nDOB 1990"`. -/
theorem C2_name_marker (t : String) :
    (firstMarkerIdx 0 (linesOf t.data) = none → extract_name t = "") ∧
    (∀ i, firstMarkerIdx 0 (linesOf t.data) = some i →
      ((i + 2 < (linesOf t.data).length →
          extract_name t = ⟨(linesOf t.data).getD (i + 2) []⟩) ∧
        ((linesOf t.data).length ≤ i + 2 → extract_name t = ""))) ∧
    extract_name "Ramesh Kumar\nDOB 1990" = "" := by
  refine ⟨fun h => ?_, fun i h => ⟨fun hb => ?_, fun hb => ?_⟩, by rfl⟩
  · unfold extract_name
    rw [nameLoop_spec _ _ 0, h]
  · unfold extract_name
    rw [nameLoop_spec _ _ 0, h]
    simp only [hb, if_true]
  · unfold extract_name
    rw [nameLoop_spec _ _ 0, h]
    have hb2 : ¬(i + 2 < (linesOf t.data).length) := by omega
    simp only [hb2, if_false]

/-- Witness for C2 on four lines with the marker in second position. -/
theorem C2_name_marker_witness :
    firstMarkerIdx 0 (linesOf "x\nTo\ny\nz".data) = some 1 ∧
      (1 + 2 < (linesOf "x\nTo\ny\nz".data).length ∧
        extract_name "x\nTo\ny\nz" = "z") :=
  ⟨by decide,
    by decide,
    (((C2_name_marker "x\nTo\ny\nz").2.1 1 (by decide)).1 (by decide)).trans
      (by decide)⟩

/-- C7: `extract_fields` always yields the record of exactly the six keys
`Name`, `Adhaar_Number`, `GENDER`, `DOB`, `Mobile`, `Pincode` (all
extractors are total functions of the text), and each field is exactly the
empty string when its pattern is absent from the input. -/
theorem C7_fields_total (t : String) :
    (extract_fields t =
      { Name := extract_name t, Adhaar_Number := extract_aadhaar_number t,
        GENDER := extract_gender t, DOB := extract_dob t,
        Mobile := extract_mobile_number t,
        Pincode :=
          match pinSearch t.data with
          | some m => ⟨m⟩
          | none => "" }) ∧
    (firstMarkerIdx 0 (linesOf t.data) = none →
      (extract_fields t).Name = "") ∧
    (aadKwSearch (normalizeChars t.data) = none →
      candidates12 (normalizeChars t.data) = [] →
      groupedSearch (normalizeChars t.data) = none →
      (extract_fields t).Adhaar_Number = "") ∧
    (containsSeq "FEMALE".data (t.data.map Char.toUpper) = false →
      containsSeq "MALE".data (t.data.map Char.toUpper) = false →
      (extract_fields t).GENDER = "") ∧
    (dateFindAll (normalizeChars t.data) = [] →
      (extract_fields t).DOB = "") ∧
    (mobKwSearch (normalizeChars t.data) = none →
      bare10Search (normalizeChars t.data) = none →
      (extract_fields t).Mobile = "") ∧
    (pinSearch t.data = none → (extract_fields t).Pincode = "") := by
  refine ⟨rfl, fun h => ?_, fun h1 h2 h3 => ?_, fun h1 h2 => ?_, fun h => ?_,
    fun h1 h2 => ?_, fun h => ?_⟩
  · show extract_name t = ""
    unfold extract_name
    rw [nameLoop_spec _ _ 0, h]
  · show extract_aadhaar_number t = ""
    simp [extract_aadhaar_number, h1, h2, h3, tier2Loop]
  · show extract_gender t = ""
    simp [extract_gender, h1, h2]
  · show extract_dob t = ""
    simp [extract_dob, h]
  · show extract_mobile_number t = ""
    simp [extract_mobile_number, h1, h2]
  · show (match pinSearch t.data with
          | some m => (⟨m⟩ : String)
          | none => "") = ""
    rw [h]

/-- Witness for C7 on a text containing none of the patterns. -/
theorem C7_fields_total_witness :
    pinSearch "hello".data = none ∧
      dateFindAll (normalizeChars "hello".data) = [] ∧
      (extract_fields "hello").Pincode = "" ∧
      (extract_fields "hello").DOB = "" :=
  ⟨by decide, by decide, (C7_fields_total "hello").2.2.2.2.2.2 (by decide),
    (C7_fields_total "hello").2.2.2.2.1 (by decide)⟩

/-- The line sequence of the end-to-end scenario, joined by newlines. -/
def c1Input : String :=
  "Government of India\nTo\nRamesh Kumar\nS/O Suresh\nDOB: 23-11-1990\nMALE\nMobile: 9876543210\nYour Aadhaar No.\n2345 6789 0123\n500001"

set_option maxRecDepth 16384 in
/-- C1 counterexample: on the scenario input, the pipeline (extract_fields
followed by the assembler of `run_aadhaar_ocr`) does not produce the record
claimed — the name and identifier both differ. -/
theorem C1_counterexample :
    runPipeline c1Input ≠
      { aadhaar_number := "2345 6789 0123", full_name := "Ramesh Kumar",
        gender := "Male", dob := "23/11/1990",
        mobile_number := "9876543210", pincode := "500001" } := by
  decide

set_option maxRecDepth 16384 in
/-- C1 amended: the pipeline yields name `S/O Suresh` (the line two after
the `To` marker) and the digits-only identifier `234567890123` (the
assembler normalizes the grouped number); gender, dob, mobile and pincode
are as claimed. -/
theorem C1_pipeline_record :
    runPipeline c1Input =
      { aadhaar_number := "234567890123", full_name := "S/O Suresh",
        gender := "Male", dob := "23/11/1990",
        mobile_number := "9876543210", pincode := "500001" } := by
  decide

/-- The `to` marker of the scenario input; claim C3's counterexample text. -/
def c3Input : String := "9999234567890123 and 234567890123"

set_option maxRecDepth 16384 in
/-- C3 counterexample: on this text the only tier-2 candidate's *own*
occurrence has a clean window (the rule described by the claim keeps it and
would answer the grouped number), but the code windows the *first* occurrence
of the digit string — inside the 16-digit run — skips the candidate, and
returns the empty string. -/
theorem C3_counterexample :
    aadKwSearch (normalizeChars c3Input.data) = none ∧
      tier2OwnWindow (normalizeChars c3Input.data) = some "234567890123".data ∧
      extract_aadhaar_number c3Input = "" :=
  ⟨by decide, by decide, by decide⟩

/-- C3 amended: below the keyword tier, the extractor returns the first
bare 12-digit candidate whose window around the *first occurrence in the
text of its digit string* (`str.find`, 5 characters before through 5 after)
holds no 16-digit run, regrouped 4+4+4, and falls through to the pre-grouped
tier exactly when every candidate is skipped or none exists. -/
theorem C3_tier2_first_occurrence (t : String)
    (hkw : aadKwSearch (normalizeChars t.data) = none) :
    extract_aadhaar_number t =
      match (candidates12 (normalizeChars t.data)).find?
          (fun num => !skip16 (normalizeChars t.data) num) with
      | some num => ⟨format12 num⟩
      | none =>
        match groupedSearch (normalizeChars t.data) with
        | some m => ⟨m⟩
        | none => "" := by
  have hloop : ∀ l : List (List Char),
      tier2Loop (normalizeChars t.data) l =
        l.find? (fun num => !skip16 (normalizeChars t.data) num) := by
    intro l
    induction l with
    | nil => rfl
    | cons num rest ih =>
      by_cases h : skip16 (normalizeChars t.data) num
      · simp [tier2Loop, List.find?, h, ih]
      · simp [tier2Loop, List.find?, h, ih]
  simp only [extract_aadhaar_number, hkw, hloop]

set_option maxRecDepth 16384 in
/-- Witness for C3's amended claim: the single candidate's window holds no
16-digit run, so the first surviving candidate is returned regrouped. -/
theorem C3_tier2_first_occurrence_witness :
    aadKwSearch (normalizeChars "56 234567890123 8".data) = none ∧
      extract_aadhaar_number "56 234567890123 8" = "2345 6789 0123" :=
  ⟨by decide,
    (C3_tier2_first_occurrence "56 234567890123 8" (by decide)).trans
      (by decide)⟩

theorem mobGroupAt_sound (s cap r : List Char)
    (h : mobGroupAt s = some (cap, r)) :
    cap.length = 10 ∧ (∀ c ∈ cap, isDigitChar c = true) ∧
      ∃ c l, cap = c :: l ∧ isFirstMob c = true := by
  unfold mobGroupAt at h
  split at h
  · exact absurd h (by simp)
  next c rest =>
    split at h
    next hc =>
      split at h
      next d1 r1 h1 =>
        simp only [Option.some.injEq, Prod.mk.injEq] at h
        obtain ⟨rfl, rfl⟩ := h
        obtain ⟨l1, m1, _⟩ := takeDigits_sound 9 rest d1 _ h1
        refine ⟨by simp [l1], ?_, c, _, rfl, hc⟩
        intro x hx
        rcases List.mem_cons.mp hx with rfl | hx
        · exact isFirstMob_digit x hc
        · exact m1 x hx
      · exact absurd h (by simp)
    next hc => exact absurd h (by simp)

theorem mobAlt_sound (lit : List Char) (s cap r : List Char)
    (h : mobAlt lit s = some (cap, r)) :
    cap.length = 10 ∧ (∀ c ∈ cap, isDigitChar c = true) ∧
      ∃ c l, cap = c :: l ∧ isFirstMob c = true := by
  unfold mobAlt at h
  split at h
  next r1 h1 =>
    split at h
    next r2 h2 => exact mobGroupAt_sound r2 cap r h
    · exact absurd h (by simp)
  · exact absurd h (by simp)

theorem mobKwAt_sound (s cap r : List Char) (h : mobKwAt s = some (cap, r)) :
    cap.length = 10 ∧ (∀ c ∈ cap, isDigitChar c = true) ∧
      ∃ c l, cap = c :: l ∧ isFirstMob c = true := by
  unfold mobKwAt at h
  split at h
  next p h1 =>
    simp only [Option.some.injEq] at h
    subst h
    exact mobAlt_sound _ s cap r h1
  next h1 =>
    split at h
    next p h2 =>
      simp only [Option.some.injEq] at h
      subst h
      exact mobAlt_sound _ s cap r h2
    next h2 => exact mobAlt_sound _ s cap r h

theorem mobKwScan_sound :
    ∀ (fuel : Nat) (s cap r : List Char),
      mobKwScan fuel s = some (cap, r) →
      cap.length = 10 ∧ (∀ c ∈ cap, isDigitChar c = true) ∧
        ∃ c l, cap = c :: l ∧ isFirstMob c = true := by
  intro fuel
  induction fuel with
  | zero => intro s cap r h; simp [mobKwScan] at h
  | succ fuel ih =>
    intro s cap r h
    match s with
    | [] => simp [mobKwScan] at h
    | c :: rest =>
      unfold mobKwScan at h
      split at h
      next p h1 =>
        simp only [Option.some.injEq] at h
        subst h
        exact mobKwAt_sound _ cap r h1
      next h1 => exact ih rest cap r h

/-- C10 amended: whenever the mobile keyword tier's leftmost match captures
`cap` (with `rest` following it in the text), `extract_mobile_number`
returns exactly those 10 digits — nothing in the pattern requires the run to
end there, so on `"mobile: 98765432109"` the answer is the proper prefix
`9876543210` of the 11-digit run; the bare fallback tier, by contrast,
requires word boundaries, so `"98765432109"` alone yields the empty
string. -/
theorem C10_keyword_no_tail_boundary :
    (∀ (t : String) (cap rest : List Char),
      mobKwSearch (normalizeChars t.data) = some (cap, rest) →
      extract_mobile_number t = ⟨cap⟩ ∧ cap.length = 10 ∧
        (∀ c ∈ cap, isDigitChar c = true) ∧
        ∃ c l, cap = c :: l ∧ isFirstMob c = true) ∧
    extract_mobile_number "mobile: 98765432109" = "9876543210" ∧
    extract_mobile_number "98765432109" = "" := by
  refine ⟨fun t cap rest h => ⟨?_, mobKwScan_sound _ _ cap rest h⟩,
    by rfl, by rfl⟩
  simp [extract_mobile_number, h]

/-- Witness for C10's amended claim: the captured digits stop inside the
11-digit run. -/
theorem C10_keyword_no_tail_boundary_witness :
    mobKwSearch (normalizeChars "mobile: 98765432109".data) =
      some ("9876543210".data, "9".data) ∧
    extract_mobile_number "mobile: 98765432109" = "9876543210" :=
  ⟨by decide,
    (C10_keyword_no_tail_boundary.1 "mobile: 98765432109" "9876543210".data
        "9".data (by decide)).1.trans (by decide)⟩

/-- Claim C10's counterexample text: an earlier keyword match with an
exactly-10-digit run coexists with a later keyword followed by a 13-digit
run. -/
def c10Input : String := "mobile 6111111111 and moblle 7222222222222"

set_option maxRecDepth 16384 in
/-- C10 counterexample: the text satisfies the claim's antecedent — a
keyword (`moblle`) is followed within 10 non-digits by a run of more than 10
digits starting 6–9, whose first 10 digits are `7222222222` — yet the
extractor answers `6111111111` from the earlier keyword match, not the
first 10 digits of that longer run. -/
theorem C10_counterexample :
    mobLongRunClaim c10Input = some "7222222222".data ∧
      extract_mobile_number c10Input = "6111111111" ∧
      extract_mobile_number c10Input ≠ "7222222222" :=
  ⟨by decide, by decide, by decide⟩

end AadhaarOCR

